import Mathlib

/-!
# Verification of the `egg` e-class analysis core

Shallow embedding of `src/eclass.rs` (the `Metadata` analysis trait, the
`EClass` structure and its `Value::merge` implementation) and of
`tests/math.rs` (the `Math` language, the constant-folding `Meta` analysis
and its `eval` helper), together with theorems settling the spec's claims
about them.

Machine integers (`usize` costs, `Id`s) are modelled as `Nat`; the
`NotNan<f64>` constants are modelled as `ℚ` (the claims checked here are
about control flow and structural equality, not float rounding);
`Vec` becomes `List`; fallible results become `Except`; the uninhabited
`std::convert::Infallible` error type becomes `Empty`.
-/

namespace Egg

/-- The `Math` language of `tests/math.rs` (`define_language!`): one tag per
operator, `Constant` carrying a numeric payload and `Variable` a string. -/
inductive Math where
  | Diff
  | Constant (c : ℚ)
  | Add
  | Sub
  | Mul
  | Div
  | Pow
  | Exp
  | Log
  | Sqrt
  | Cbrt
  | Fabs
  | Log1p
  | Expm1
  | RealToPosit
  | Variable (s : String)
deriving DecidableEq, Repr

/-- Rust `ENode<Math, C>`: an operator applied to children of type `C`
(class ids `Id = Nat` in an e-graph, costs in the cost function, …). -/
structure ENode (C : Type) where
  op : Math
  children : List C
deriving DecidableEq, Repr

/-- Rust `ENode::leaf(op)`: an e-node with no children. -/
def ENode.leaf (op : Math) : ENode Nat := ⟨op, []⟩

/-- Rust `RecExpr<Math>`: a recursive expression, i.e. an e-node whose children
are themselves expressions (`ENode<Math, RecExpr<Math>>`). -/
inductive RecExpr where
  | mk (op : Math) (children : List RecExpr)

/-- The operator at the root of a `RecExpr` (`expr.as_ref().op`). -/
def RecExpr.op : RecExpr → Math
  | .mk o _ => o

/-- The child expressions at the root of a `RecExpr`
(`expr.as_ref().children`). -/
def RecExpr.children : RecExpr → List RecExpr
  | .mk _ cs => cs

/-- The `Meta` analysis data of `tests/math.rs`: the cost of the best
(cheapest, under `MathCostFn`) expression known equivalent to the class,
and that expression itself. -/
structure Meta where
  cost : Nat
  best : RecExpr

/-- Rust `Meta::merge` (`tests/math.rs`): keep whichever of the two values has
the lower cost, keeping `self` on ties. -/
def Meta.merge (self other : Meta) : Meta :=
  if self.cost ≤ other.cost then self else other

/-- Rust `MathCostFn::cost` (`tests/math.rs`): operator cost (100 for `Diff`,
1 otherwise) plus the sum of the children's costs. -/
def mathCostFn (enode : ENode Nat) : Nat :=
  (if enode.op = Math.Diff then 100 else 1) + enode.children.sum

/-- Rust `eval` (`tests/math.rs`): constant folding for one operator applied to a
list of constant arguments. `a i` is `args.get(i)`; in the Rust source the
`?` operator makes any missing argument return `None` from `eval`, which the
`Option` do-notation mirrors; the `match` guard on `Div` falls through to the
catch-all `None` arm when the second argument is the constant `0`. -/
def eval (op : Math) (args : List ℚ) : Option ℚ :=
  let a := fun i => args.get? i
  let zero : Option ℚ := some 0
  match op with
  | .Add => do pure ((← a 0) + (← a 1))
  | .Sub => do pure ((← a 0) - (← a 1))
  | .Mul => do pure ((← a 0) * (← a 1))
  | .Div => if a 1 ≠ zero then do pure ((← a 0) / (← a 1)) else none
  | _ => none

/-- Rust `EClass<Math, M>` (`src/eclass.rs`): an e-class with its id, its e-nodes,
its analysis metadata, and (under the `parent-pointers` feature) the
`IndexSet<usize>` of parent indices. -/
structure EClass (M : Type) where
  id : Nat
  nodes : List (ENode Nat)
  metadata : M
  parents : List Nat

/-- Rust `IndexSet::extend`: append the elements of `t` that are not already
present, preserving insertion order. -/
def indexSetExtend (s t : List Nat) : List Nat :=
  t.foldl (fun acc x => if x ∈ acc then acc else acc ++ [x]) s

/-- Rust `Meta::modify` (`tests/math.rs`): when the best expression is a leaf,
replace (not extend — the source comment notes this is where pruning is
chosen) the class's nodes with that single leaf e-node. -/
def Meta.modify (eclass : EClass Meta) : EClass Meta :=
  let best := eclass.metadata.best
  if best.children.isEmpty then
    { eclass with nodes := [ENode.leaf best.op] }
  else
    eclass

/-- Rust `Meta::make` (`tests/math.rs`): constant-fold the e-node when all its
children's best expressions are constants and `eval` succeeds, then record
the best expression and its cost. The e-graph is only consulted for the
children's metadata, so it is passed as the lookup `metaOf`. -/
def Meta.make (metaOf : Nat → Meta) (enode : ENode Nat) : Meta :=
  let constArgs : Option (List ℚ) :=
    enode.children.mapM fun i =>
      match (metaOf i).best.op with
      | Math.Constant c => some c
      | _ => none
  let enode2 : ENode Nat :=
    match constArgs.bind fun a => eval enode.op a with
    | some c => ENode.leaf (Math.Constant c)
    | none => enode
  let best : RecExpr := .mk enode2.op (enode2.children.map fun c => (metaOf c).best)
  let cost : Nat := mathCostFn ⟨enode2.op, enode2.children.map fun c => (metaOf c).cost⟩
  ⟨cost, best⟩

/-- Rust `impl Value for EClass<L, M>` — `Value::merge` (`src/eclass.rs`): keep
the larger node list and extend it with the smaller (`mem::swap` modelled by
the pair), merge the metadata, extend the parents, then invoke the analysis's
`modify` hook on the result and return `Ok`. The error type
`std::convert::Infallible` is the uninhabited `Empty`. The generic analysis
`M` is passed as its `merge` and `modify` functions; the unused
`_unionfind` parameter is omitted. -/
def mergeValue (M : Type) (mergeM : M → M → M) (modifyM : EClass M → EClass M)
    (toC fromC : EClass M) : Except Empty (EClass M) :=
  let less := toC.nodes
  let more := fromC.nodes
  -- make sure less is actually smaller
  let p := if more.length < less.length then (more, less) else (less, more)
  let eclass : EClass M :=
    { id := toC.id
      nodes := p.2 ++ p.1
      metadata := mergeM toC.metadata fromC.metadata
      parents := indexSetExtend toC.parents fromC.parents }
  Except.ok (modifyM eclass)

/-- The e-class that `Value::merge` builds before the `modify` hook runs:
the surviving (`to`) id, the larger node list extended with the smaller,
the merged metadata, and the union of the parents. -/
def preMergeClass (M : Type) (mergeM : M → M → M) (toC fromC : EClass M) : EClass M :=
  { id := toC.id
    nodes :=
      if fromC.nodes.length < toC.nodes.length then toC.nodes ++ fromC.nodes
      else fromC.nodes ++ toC.nodes
    metadata := mergeM toC.metadata fromC.metadata
    parents := indexSetExtend toC.parents fromC.parents }

/-- The default `Metadata::modify` of the trait (`src/eclass.rs`): it does
nothing. -/
def Metadata.defaultModify (M : Type) (eclass : EClass M) : EClass M := eclass

/-- Rust `impl Metadata<L> for ()` — `merge` (`src/eclass.rs`): the unit analysis
merge returns `()`. -/
def unitMerge (_self _other : Unit) : Unit := ()

/-- Rust `impl Metadata<L> for ()` — `make` (`src/eclass.rs`): the unit analysis
datum of any e-node is `()`. -/
def unitMake (_enode : ENode Unit) : Unit := ()

/-- The unit analysis does not override `modify`, so it is the trait
default, which does nothing. -/
def unitModify : EClass Unit → EClass Unit := Metadata.defaultModify Unit

/-- A concrete `Meta` value of cost 1 whose best expression is the
variable `x`. -/
def metaX : Meta := ⟨1, .mk (.Variable "x") []⟩

/-- A concrete `Meta` value of cost 1 whose best expression is the
variable `y`. -/
def metaY : Meta := ⟨1, .mk (.Variable "y") []⟩

/-- A concrete e-class holding the single e-node `(+ 1 2)` (ids), whose
metadata says the class constant-folds to the leaf `3`. -/
def toClass : EClass Meta :=
  { id := 0
    nodes := [⟨Math.Add, [1, 2]⟩]
    metadata := ⟨1, .mk (.Constant 3) []⟩
    parents := [10] }

/-- A concrete e-class holding the single e-node `(* 3 4)` (ids), with more
expensive metadata than `toClass`. -/
def fromClass : EClass Meta :=
  { id := 1
    nodes := [⟨Math.Mul, [3, 4]⟩]
    metadata := ⟨2, .mk (.Variable "z") []⟩
    parents := [11] }

/-! ## The saturation engine, modelled from the spec

The e-graph itself (hashcons, `add`, `union`, `rebuild`), the pattern
matcher and the saturation runner are part of this repository but their
source is not under `src/`; only the `Metadata`/`EClass` layer
(`src/eclass.rs`) and the rules, analysis hooks and scenarios of
`tests/math.rs` are. The definitions below model the missing engine from
the spec (sections 3, 4.A, 4.E, 4.F, 4.G, 4.I) so that the scenario claims
about whole saturation runs can be stated. The analysis hooks and rewrite
rules they are instantiated with are translated from `tests/math.rs`. -/

mutual

/-- Boolean structural equality of `RecExpr`s (the derived `PartialEq` of
Rust). -/
def RecExpr.beq : RecExpr → RecExpr → Bool
  | .mk o1 cs1, .mk o2 cs2 => o1 == o2 && RecExpr.beqList cs1 cs2

/-- Pointwise `RecExpr.beq` on child lists. -/
def RecExpr.beqList : List RecExpr → List RecExpr → Bool
  | [], [] => true
  | x :: xs, y :: ys => RecExpr.beq x y && RecExpr.beqList xs ys
  | _, _ => false

end

/-- Boolean equality of `Meta` values (the derived `PartialEq`): equal cost
and structurally equal best expression. -/
def Meta.beqData (a b : Meta) : Bool :=
  a.cost == b.cost && RecExpr.beq a.best b.best

/-- Modelled from the spec: the `EClass` of section 3 as the engine stores
it — id, e-nodes, analysis data, and the `parents` back-index of
`(parent e-node, owner class id)` pairs used by `rebuild`. -/
structure SClass (M : Type) where
  id : Nat
  nodes : List (ENode Nat)
  data : M
  parents : List (ENode Nat × Nat)

/-- Modelled from the spec (section 4.D): the analysis passed to the engine
as its capability record — `make` data for a new e-node (reading children's
data), `merge` data of unified classes, `modify` the containing class, plus
the data equality used for the "data changed" test of rebuild step 3 and a
default datum for total lookups. -/
structure Analysis (M : Type) where
  makeData : (Nat → M) → ENode Nat → M
  mergeData : M → M → M
  modifyClass : SClass M → SClass M
  sameData : M → M → Bool
  defaultData : M

/-- The unit analysis as an engine capability record: everything trivial. -/
def unitAnalysis : Analysis Unit :=
  ⟨fun _ _ => (), fun _ _ => (), fun c => c, fun _ _ => true, ()⟩

/-- Rust `Meta::modify` of `tests/math.rs` acting on an engine class: when
the best expression is a leaf, replace the class's nodes with that single
leaf e-node. -/
def Meta.modifySC (c : SClass Meta) : SClass Meta :=
  let best := c.data.best
  if best.children.isEmpty then { c with nodes := [ENode.leaf best.op] }
  else c

/-- The math `Meta` analysis of `tests/math.rs` as an engine capability
record. -/
def metaAnalysis : Analysis Meta :=
  ⟨Meta.make, Meta.merge, Meta.modifySC, Meta.beqData, ⟨0, .mk (.Constant 0) []⟩⟩

/-- Modelled from the spec (sections 3, 4.A, 4.E): the e-graph state — the
union-find parent vector indexed by class id, the live classes, the
hashcons mapping canonical e-nodes to class ids, and the worklist of
classes pending repair. -/
structure EGraph (M : Type) where
  uf : List Nat
  classes : List (SClass M)
  hashcons : List (ENode Nat × Nat)
  worklist : List Nat

/-- The empty e-graph. -/
def EGraph.emptyG (M : Type) : EGraph M := ⟨[], [], [], []⟩

/-- Modelled from the spec (section 4.A): follow parent pointers to the
root. The fuel bounds the chain length by the number of ids; path
compression is omitted (it changes cost, not the result of `find`). -/
def findAux (uf : List Nat) : Nat → Nat → Nat
  | 0, i => i
  | fuel+1, i =>
    let p := uf.getD i i
    if p = i then i else findAux uf fuel p

/-- Modelled from the spec (section 4.A): `find(id)` is the union-find
root of `id`. -/
def EGraph.find {M : Type} (eg : EGraph M) (i : Nat) : Nat :=
  findAux eg.uf eg.uf.length i

/-- Modelled from the spec (section 4.C): canonicalization replaces every
child by its find-root. -/
def EGraph.canon {M : Type} (eg : EGraph M) (n : ENode Nat) : ENode Nat :=
  ⟨n.op, n.children.map eg.find⟩

/-- The live class owning id `i` (total, with an empty class as default for
ids that never existed). -/
def EGraph.classOf {M : Type} (A : Analysis M) (eg : EGraph M) (i : Nat) : SClass M :=
  let r := eg.find i
  (eg.classes.find? (fun c => c.id = r)).getD ⟨r, [], A.defaultData, []⟩

/-- The analysis data of the class owning id `i`. -/
def EGraph.dataOf {M : Type} (A : Analysis M) (eg : EGraph M) (i : Nat) : M :=
  (EGraph.classOf A eg i).data

/-- Modelled from the spec (section 4.E): `number_of_classes()` counts the
live classes. -/
def EGraph.numberOfClasses {M : Type} (eg : EGraph M) : Nat := eg.classes.length

/-- Modelled from the spec (section 4.E): `total_size()` counts e-nodes
over all live classes. -/
def EGraph.totalSize {M : Type} (eg : EGraph M) : Nat :=
  (eg.classes.map (fun c => c.nodes.length)).sum

/-- Replace the stored class with the same id. -/
def setClass {M : Type} (eg : EGraph M) (c : SClass M) : EGraph M :=
  { eg with classes := eg.classes.map fun c' => if c'.id = c.id then c else c' }

/-- Modelled from the spec (section 4.E `add`): register the new e-node in
each child's `parents` back-index. -/
def registerParents {M : Type} (eg : EGraph M) (n : ENode Nat) (owner : Nat) : EGraph M :=
  { eg with classes := eg.classes.map fun c =>
      if n.children.contains c.id then { c with parents := c.parents ++ [(n, owner)] }
      else c }

/-- Modelled from the spec (section 4.E): `add(enode)` canonicalizes, returns
the existing class when the hashcons knows the e-node, and otherwise creates
a fresh singleton class with `make` data, installs the hashcons entry,
registers the parents and calls `modify` on the new class (enqueueing the
class for repair when `modify` changed its nodes, so that the rebuild
restores the hashcons invariant for nodes `modify` introduced). -/
def EGraph.add {M : Type} (A : Analysis M) (eg : EGraph M) (n : ENode Nat) :
    EGraph M × Nat :=
  let n' := eg.canon n
  match eg.hashcons.lookup n' with
  | some i => (eg, eg.find i)
  | none =>
    let i := eg.uf.length
    let d := A.makeData (EGraph.dataOf A eg) n'
    let cls : SClass M := ⟨i, [n'], d, []⟩
    let cls' := A.modifyClass cls
    let eg := { eg with
      uf := eg.uf ++ [i]
      classes := eg.classes ++ [cls']
      hashcons := (n', i) :: eg.hashcons
      worklist :=
        if cls'.nodes == cls.nodes then eg.worklist else eg.worklist ++ [i] }
    (registerParents eg n' i, i)

mutual

/-- Modelled from the spec (section 4.E): `add_expr` folds `add` bottom-up
over a `RecExpr`. -/
def EGraph.addExpr {M : Type} (A : Analysis M) (eg : EGraph M) :
    RecExpr → EGraph M × Nat
  | .mk op cs =>
    let (eg, ids) := addExprList A eg cs
    EGraph.add A eg ⟨op, ids⟩

/-- Fold `addExpr` over a list of child expressions, left to right. -/
def addExprList {M : Type} (A : Analysis M) (eg : EGraph M) :
    List RecExpr → EGraph M × List Nat
  | [] => (eg, [])
  | e :: es =>
    let (eg, i) := EGraph.addExpr A eg e
    let (eg, is) := addExprList A eg es
    (eg, i :: is)

end

/-- Modelled from the spec (section 4.E): `union(a, b)` resolves both roots
and, when distinct, performs the union-find union and gives the surviving
root the merged class value exactly as `Value::merge` of `src/eclass.rs`
builds it (larger node list extended with the smaller, merged data, merged
parents, then the analysis's `modify`), marking the root pending repair.
Returns whether two distinct classes were actually merged. -/
def EGraph.union {M : Type} (A : Analysis M) (eg : EGraph M) (a b : Nat) :
    EGraph M × Bool :=
  let ra := eg.find a
  let rb := eg.find b
  if ra = rb then (eg, false)
  else
    let ca := EGraph.classOf A eg ra
    let cb := EGraph.classOf A eg rb
    let nodes := if cb.nodes.length < ca.nodes.length
      then ca.nodes ++ cb.nodes else cb.nodes ++ ca.nodes
    let merged : SClass M :=
      A.modifyClass ⟨ra, nodes, A.mergeData ca.data cb.data, ca.parents ++ cb.parents⟩
    let eg := { eg with
      uf := eg.uf.set rb ra
      classes := merged :: (eg.classes.filter fun c => c.id ≠ ra ∧ c.id ≠ rb)
      worklist := eg.worklist ++ [ra] }
    (eg, true)

/-- Remove a hashcons entry under the given (old) key. -/
def listEraseKey (h : List (ENode Nat × Nat)) (k : ENode Nat) :
    List (ENode Nat × Nat) :=
  h.filter fun p => p.1 ≠ k

/-- Modelled from the spec (rebuild step 2 of section 4.E): remove the
parent e-node from the hashcons under its old key, re-canonicalize it, and
reinsert — unioning with the existing class when another entry already maps
the canonical form. Returns the updated parent record. -/
def repairParent {M : Type} (A : Analysis M) (eg : EGraph M) (pn : ENode Nat)
    (pc : Nat) : EGraph M × (ENode Nat × Nat) :=
  let eg := { eg with hashcons := listEraseKey eg.hashcons pn }
  let pn' := eg.canon pn
  let pc' := eg.find pc
  match eg.hashcons.lookup pn' with
  | some c2 =>
    let (eg, _) := EGraph.union A eg pc' c2
    (eg, (pn', eg.find pc'))
  | none =>
    ({ eg with hashcons := (pn', pc') :: eg.hashcons }, (pn', pc'))

/-- Reinstall one of a class's own canonical e-nodes in the hashcons,
unioning on collision. Required by the section 3 post-condition of rebuild
when `modify` replaced or added e-nodes (section 9's open question on
`modify` during rebuild). -/
def rehashNode {M : Type} (A : Analysis M) (eg : EGraph M) (cid : Nat)
    (n : ENode Nat) : EGraph M :=
  match eg.hashcons.lookup n with
  | some c2 =>
    if eg.find c2 = eg.find cid then eg
    else (EGraph.union A eg cid c2).1
  | none => { eg with hashcons := (n, eg.find cid) :: eg.hashcons }

/-- Deduplicate a node list, keeping first occurrences in order. -/
def dedupNodes (ns : List (ENode Nat)) : List (ENode Nat) :=
  ns.foldl (fun acc n => if acc.contains n then acc else acc ++ [n]) []

/-- Modelled from the spec (rebuild steps 2-3 of section 4.E): repair one
touched class — repair each parent entry, re-canonicalize, deduplicate and
rehash the class's own nodes, then recompute the data by re-folding `make`
over the nodes; when the data changed, run `modify` and enqueue the class
again. -/
def repairClass {M : Type} (A : Analysis M) (eg : EGraph M) (cid0 : Nat) :
    EGraph M :=
  let cid := eg.find cid0
  let cls := EGraph.classOf A eg cid
  let (eg, newParents) := cls.parents.foldl
    (fun (acc : EGraph M × List (ENode Nat × Nat)) pr =>
      let (eg, ps) := acc
      let (eg, pr') := repairParent A eg pr.1 pr.2
      (eg, ps ++ [pr']))
    (eg, [])
  let r := eg.find cid
  let eg := setClass eg { (EGraph.classOf A eg r) with parents := newParents }
  let cls := EGraph.classOf A eg r
  let nodes := dedupNodes (cls.nodes.map eg.canon)
  let eg := setClass eg { cls with nodes := nodes }
  let eg := nodes.foldl (fun eg n => rehashNode A eg (eg.find r) n) eg
  let r := eg.find r
  let cls := EGraph.classOf A eg r
  match cls.nodes.map (A.makeData (EGraph.dataOf A eg)) with
  | [] => eg
  | d :: ds =>
    let newData := ds.foldl A.mergeData d
    if A.sameData newData cls.data then eg
    else
      let cls' := A.modifyClass { cls with data := newData }
      let eg := setClass eg cls'
      { eg with worklist := eg.worklist ++ [r] }

/-- Modelled from the spec (rebuild of section 4.E): drain the worklist to
a fixpoint — pop, deduplicate by `find`, repair every touched class, and
repeat on the classes the repairs enqueued. The fuel bounds the number of
passes. -/
def rebuildLoop {M : Type} (A : Analysis M) : Nat → EGraph M → EGraph M
  | 0, eg => eg
  | fuel+1, eg =>
    match eg.worklist with
    | [] => eg
    | wl =>
      let todo := (wl.map eg.find).foldl
        (fun acc i => if acc.contains i then acc else acc ++ [i]) []
      let eg := { eg with worklist := [] }
      let eg := todo.foldl (fun eg i => repairClass A eg i) eg
      rebuildLoop A fuel eg

/-- Modelled from the spec (section 4.F): a pattern is a tree whose leaves
are operator shapes or named pattern variables; variables may repeat. -/
inductive Pattern where
  | pvar (v : String)
  | pnode (op : Math) (children : List Pattern)

/-- Modelled from the spec (section 4.G): a substitution maps variable
names to class ids. -/
abbrev Subst : Type := List (String × Nat)

mutual

/-- Modelled from the spec (section 4.G): match a pattern against one
class — a variable binds the class root (checking consistency with a prior
binding, for non-linear patterns), and an operator pattern tries every
e-node of the class with that operator and arity, matching children
recursively. The fuel bounds the recursion depth through class ids. -/
def matchPat {M : Type} (A : Analysis M) (eg : EGraph M) (fuel : Nat) (cid : Nat)
    (p : Pattern) (σ : Subst) : List Subst :=
  match fuel, p with
  | 0, _ => []
  | _, .pvar v =>
    match List.lookup v σ with
    | some c' => if eg.find c' = eg.find cid then [σ] else []
    | none => [(v, eg.find cid) :: σ]
  | fuel+1, .pnode op ps =>
    (EGraph.classOf A eg cid).nodes.flatMap fun n =>
      if n.op = op ∧ n.children.length = ps.length then
        matchChildren A eg fuel (ps.zip n.children) σ
      else []

/-- Match a list of (child pattern, child class) pairs in order, merging
substitutions (the cross product of the per-child matches). -/
def matchChildren {M : Type} (A : Analysis M) (eg : EGraph M) (fuel : Nat)
    (pcs : List (Pattern × Nat)) (σ : Subst) : List Subst :=
  match fuel, pcs with
  | 0, _ => []
  | _, [] => [σ]
  | fuel+1, (p, c) :: rest =>
    (matchPat A eg fuel c p σ).flatMap (matchChildren A eg fuel rest)

end

mutual

/-- Depth of a pattern tree (used to pick sufficient matcher fuel). -/
def patDepth : Pattern → Nat
  | .pvar _ => 1
  | .pnode _ ps => 1 + patDepthList ps

/-- Maximum depth over a list of patterns. -/
def patDepthList : List Pattern → Nat
  | [] => 0
  | p :: ps => Nat.max (patDepth p) (patDepthList ps)

end

/-- Modelled from the spec (section 4.G): `search_pattern` emits every
`(root class, substitution)` produced by matching the pattern at every live
class. -/
def searchPat {M : Type} (A : Analysis M) (eg : EGraph M) (p : Pattern) :
    List (Nat × Subst) :=
  eg.classes.flatMap fun c =>
    (matchPat A eg (patDepth p * 2 + 2) c.id p []).map fun σ => (c.id, σ)

mutual

/-- Modelled from the spec (section 4.H): instantiate the right-hand-side
pattern under a substitution, calling `add` bottom-up; a variable yields its
bound class. -/
def instantiate {M : Type} (A : Analysis M) (eg : EGraph M) (p : Pattern)
    (σ : Subst) : EGraph M × Nat :=
  match p with
  | .pvar v => (eg, (List.lookup v σ).getD 0)
  | .pnode op ps =>
    let (eg, ids) := instantiateList A eg ps σ
    EGraph.add A eg ⟨op, ids⟩

/-- Instantiate a list of child patterns, left to right. -/
def instantiateList {M : Type} (A : Analysis M) (eg : EGraph M) (ps : List Pattern)
    (σ : Subst) : EGraph M × List Nat :=
  match ps with
  | [] => (eg, [])
  | q :: qs =>
    let (eg, i) := instantiate A eg q σ
    let (eg, is) := instantiateList A eg qs σ
    (eg, i :: is)

end

/-- Modelled from the spec (section 4.H): a rewrite rule — name, left and
right pattern, and an optional applicability condition over the e-graph,
matched root and substitution. -/
structure Rewrite (M : Type) where
  name : String
  lhs : Pattern
  rhs : Pattern
  cond : Option (Analysis M → EGraph M → Nat → Subst → Bool)

/-- Modelled from the spec (section 4.I search phase): gather all matches of
every rule against the current e-graph before any applier runs, dropping
matches whose condition fails; each match is recorded with the rule's
right-hand side, the matched root and the substitution. -/
def matchesOf {M : Type} (A : Analysis M) (rules : List (Rewrite M))
    (eg : EGraph M) : List (Pattern × Nat × Subst) :=
  rules.flatMap fun r =>
    let ms := searchPat A eg r.lhs
    let ms := match r.cond with
      | some f => ms.filter fun (m : Nat × Subst) => f A eg m.1 m.2
      | none => ms
    ms.map fun (m : Nat × Subst) => (r.rhs, m.1, m.2)

/-- Modelled from the spec (section 4.I apply phase): apply each gathered
match in order — instantiate the right-hand side under the substitution and
union it with the matched root — reporting whether any union merged two
distinct classes. -/
def applyAll {M : Type} (A : Analysis M) (ms : List (Pattern × Nat × Subst))
    (eg0 : EGraph M) : EGraph M × Bool :=
  ms.foldl
    (fun (acc : EGraph M × Bool) (m : Pattern × Nat × Subst) =>
      let (eg, changed) := acc
      let (eg, rid) := instantiate A eg m.1 m.2.2
      let (eg, c) := EGraph.union A eg m.2.1 rid
      (eg, changed || c))
    (eg0, false)

/-- Modelled from the spec (section 4.I): one runner iteration — search
(gather all matches first), apply them all, then rebuild. Also reports
whether any union merged two distinct classes. -/
def iteration {M : Type} (A : Analysis M) (rules : List (Rewrite M))
    (eg : EGraph M) : EGraph M × Bool :=
  let p := applyAll A (matchesOf A rules eg) eg
  (rebuildLoop A 1000 p.1, p.2)

/-- Modelled from the spec (sections 4.I and 6): run iterations until the
two goal ids fall into one class (the equivalence check enabled by
`with_expr`), until an iteration produces no new union (saturation), or
until the fuel (the iteration limit) runs out; reports the iterations used
and whether the goal classes ended up equal. -/
def runGoal {M : Type} (A : Analysis M) (rules : List (Rewrite M)) (s g : Nat) :
    Nat → EGraph M → EGraph M × Nat × Bool
  | 0, eg => (eg, 0, eg.find s = eg.find g)
  | fuel+1, eg =>
    if eg.find s = eg.find g then (eg, 0, true)
    else
      let (eg, changed) := iteration A rules eg
      if changed then
        let (eg, n, ok) := runGoal A rules s g fuel eg
        (eg, n + 1, ok)
      else (eg, 1, eg.find s = eg.find g)

/-- Modelled from the spec (section 4.I): run iterations until saturation
(an iteration with zero new unions) or until the fuel (iteration limit)
runs out; reports the number of iterations run. -/
def runSat {M : Type} (A : Analysis M) (rules : List (Rewrite M)) :
    Nat → EGraph M → EGraph M × Nat
  | 0, eg => (eg, 0)
  | fuel+1, eg =>
    let (eg, changed) := iteration A rules eg
    if changed then
      let (eg, n) := runSat A rules fuel eg
      (eg, n + 1)
    else (eg, 1)

/-- Pattern for a binary application. -/
def p2 (op : Math) (a b : Pattern) : Pattern := .pnode op [a, b]

/-- Pattern for a constant leaf. -/
def pconst (q : ℚ) : Pattern := .pnode (.Constant q) []

/-- Pattern variable `?a`. -/
def pa : Pattern := .pvar "a"

/-- Pattern variable `?b`. -/
def pb : Pattern := .pvar "b"

/-- Pattern variable `?c`. -/
def pcv : Pattern := .pvar "c"

/-- Pattern variable `?x`. -/
def px : Pattern := .pvar "x"

/-- Rust `is_not_zero` (`tests/math.rs`): the class bound to the variable
must not contain the constant-0 e-node. -/
def isNotZero {M : Type} (v : String) :
    Analysis M → EGraph M → Nat → Subst → Bool :=
  fun A eg _ σ =>
    let zero : ENode Nat := ⟨.Constant 0, []⟩
    ! ((EGraph.classOf A eg ((List.lookup v σ).getD 0)).nodes.contains zero)

/-- Rust `c_is_const_or_var_and_not_x` (`tests/math.rs`): the class bound
to `?c` contains a constant or variable e-node, and `?c` is bound to a
different id than `?x`. -/
def cIsConstOrVarAndNotX {M : Type} :
    Analysis M → EGraph M → Nat → Subst → Bool :=
  fun A eg _ σ =>
    let cid := (List.lookup "c" σ).getD 0
    let xid := (List.lookup "x" σ).getD 0
    let isCV := (EGraph.classOf A eg cid).nodes.any fun n =>
      match n.op with
      | .Constant _ => true
      | .Variable _ => true
      | _ => false
    isCV && xid ≠ cid

/-- Rust `rules()` (`tests/math.rs`): the full arithmetic and
differentiation ruleset, one `Rewrite` per `rw!` entry, in source order. -/
def mathRules (M : Type) : List (Rewrite M) := [
  ⟨"comm-add", p2 .Add pa pb, p2 .Add pb pa, none⟩,
  ⟨"comm-mul", p2 .Mul pa pb, p2 .Mul pb pa, none⟩,
  ⟨"assoc-add", p2 .Add pa (p2 .Add pb pcv), p2 .Add (p2 .Add pa pb) pcv, none⟩,
  ⟨"assoc-mul", p2 .Mul pa (p2 .Mul pb pcv), p2 .Mul (p2 .Mul pa pb) pcv, none⟩,
  ⟨"sub-canon", p2 .Sub pa pb, p2 .Add pa (p2 .Mul (pconst (-1)) pb), none⟩,
  ⟨"div-canon", p2 .Div pa pb, p2 .Mul pa (p2 .Pow pb (pconst (-1))), none⟩,
  ⟨"canon-sub", p2 .Add pa (p2 .Mul (pconst (-1)) pb), p2 .Sub pa pb, none⟩,
  ⟨"zero-add", p2 .Add pa (pconst 0), pa, none⟩,
  ⟨"zero-mul", p2 .Mul pa (pconst 0), pconst 0, none⟩,
  ⟨"one-mul", p2 .Mul pa (pconst 1), pa, none⟩,
  ⟨"add-zero", pa, p2 .Add pa (pconst 0), none⟩,
  ⟨"mul-one", pa, p2 .Mul pa (pconst 1), none⟩,
  ⟨"cancel-sub", p2 .Sub pa pa, pconst 0, none⟩,
  ⟨"cancel-div", p2 .Div pa pa, pconst 1, none⟩,
  ⟨"distribute", p2 .Mul pa (p2 .Add pb pcv),
    p2 .Add (p2 .Mul pa pb) (p2 .Mul pa pcv), none⟩,
  ⟨"factor", p2 .Add (p2 .Mul pa pb) (p2 .Mul pa pcv),
    p2 .Mul pa (p2 .Add pb pcv), none⟩,
  ⟨"pow-intro", pa, p2 .Pow pa (pconst 1), none⟩,
  ⟨"pow-mul", p2 .Mul (p2 .Pow pa pb) (p2 .Pow pa pcv),
    p2 .Pow pa (p2 .Add pb pcv), none⟩,
  ⟨"pow0", p2 .Pow px (pconst 0), pconst 1, none⟩,
  ⟨"pow1", p2 .Pow px (pconst 1), px, none⟩,
  ⟨"pow2", p2 .Pow px (pconst 2), p2 .Mul px px, none⟩,
  ⟨"pow-recip", p2 .Pow px (pconst (-1)), p2 .Div (pconst 1) px,
    some (isNotZero "x")⟩,
  ⟨"d-variable", p2 .Diff px px, pconst 1, none⟩,
  ⟨"d-constant", p2 .Diff px (.pvar "c"), pconst 0, some cIsConstOrVarAndNotX⟩,
  ⟨"d-add", p2 .Diff px (p2 .Add pa pb),
    p2 .Add (p2 .Diff px pa) (p2 .Diff px pb), none⟩,
  ⟨"d-mul", p2 .Diff px (p2 .Mul pa pb),
    p2 .Add (p2 .Mul pa (p2 .Diff px pb)) (p2 .Mul pb (p2 .Diff px pa)), none⟩,
  ⟨"d-power", p2 .Diff px (p2 .Pow (.pvar "f") (.pvar "g")),
    p2 .Mul (p2 .Pow (.pvar "f") (.pvar "g"))
      (p2 .Add (p2 .Mul (p2 .Diff px (.pvar "f"))
                  (p2 .Div (.pvar "g") (.pvar "f")))
               (p2 .Mul (p2 .Diff px (.pvar "g"))
                  (.pnode .Log [.pvar "f"]))),
    some (isNotZero "f")⟩]

/-- The two rules of the `math_associate_adds` test: `comm-add` and
`assoc-add`. -/
def associateRules : List (Rewrite Unit) := [
  ⟨"comm-add", p2 .Add pa pb, p2 .Add pb pa, none⟩,
  ⟨"assoc-add", p2 .Add pa (p2 .Add pb pcv), p2 .Add (p2 .Add pa pb) pcv, none⟩]

/-- Expression with a constant leaf. -/
def eConst (q : ℚ) : RecExpr := .mk (.Constant q) []

/-- Expression with a variable leaf. -/
def eVar (s : String) : RecExpr := .mk (.Variable s) []

/-- Binary expression application. -/
def e2 (op : Math) (a b : RecExpr) : RecExpr := .mk op [a, b]

/-- The start expression of scenario S3:
`(+ 1 (+ 2 (+ 3 (+ 4 (+ 5 (+ 6 7))))))`. -/
def associateStart : RecExpr :=
  e2 .Add (eConst 1) (e2 .Add (eConst 2) (e2 .Add (eConst 3)
    (e2 .Add (eConst 4) (e2 .Add (eConst 5) (e2 .Add (eConst 6) (eConst 7))))))

/-- The goal expression of scenario S3:
`(+ 7 (+ 6 (+ 5 (+ 4 (+ 3 (+ 2 1))))))`. -/
def associateGoal : RecExpr :=
  e2 .Add (eConst 7) (e2 .Add (eConst 6) (e2 .Add (eConst 5)
    (e2 .Add (eConst 4) (e2 .Add (eConst 3) (e2 .Add (eConst 2) (eConst 1))))))

/-- The full S3 run: add the start expression, saturate `comm-add` and
`assoc-add` with the unit analysis, then add the goal expression; yields
the class count and whether the two expressions share one class. -/
def associateRun (fuel : Nat) : Nat × Bool :=
  let A := unitAnalysis
  let p1 := EGraph.addExpr A (EGraph.emptyG Unit) associateStart
  let egSat := (runSat A associateRules fuel p1.1).1
  let p2 := EGraph.addExpr A egSat associateGoal
  (p2.1.numberOfClasses, p2.1.find p1.2 = p2.1.find p2.2)

/-- One differentiation scenario of S5: add the start and goal expressions
under the math `Meta` analysis, rebuild, and run the full ruleset until the
goal classes merge (or saturation, or the fuel runs out); yields whether
they merged. -/
def diffRun (sE gE : RecExpr) (fuel : Nat) : Bool :=
  let A := metaAnalysis
  let p1 := EGraph.addExpr A (EGraph.emptyG Meta) sE
  let eg1 := rebuildLoop A 100 p1.1
  let p2 := EGraph.addExpr A eg1 gE
  let eg2 := rebuildLoop A 100 p2.1
  (runGoal A (mathRules Meta) p1.2 p2.2 fuel eg2).2.2

/-- The S6 run: add `(+ x y)` and `(/ x y)` under the math `Meta` analysis
and run the full ruleset; yields whether their classes ever merge. -/
def failRun (fuel : Nat) : Bool :=
  let A := metaAnalysis
  let p1 := EGraph.addExpr A (EGraph.emptyG Meta) (e2 .Add (eVar "x") (eVar "y"))
  let eg1 := rebuildLoop A 100 p1.1
  let p2 := EGraph.addExpr A eg1 (e2 .Div (eVar "x") (eVar "y"))
  let eg2 := rebuildLoop A 100 p2.1
  (runGoal A (mathRules Meta) p1.2 p2.2 fuel eg2).2.2

/-- A concrete e-class over the unit analysis with one e-node. -/
def uClass1 : EClass Unit := ⟨0, [⟨Math.Add, [1, 2]⟩], (), [5]⟩

/-- A second concrete e-class over the unit analysis with two e-nodes. -/
def uClass2 : EClass Unit := ⟨1, [⟨Math.Variable "x", []⟩, ⟨Math.Mul, [0, 0]⟩], (), [5, 6]⟩

/-- Membership in `indexSetExtend s t` is membership in `s` or in `t`. -/
theorem mem_indexSetExtend (s t : List Nat) (x : Nat) :
    x ∈ indexSetExtend s t ↔ x ∈ s ∨ x ∈ t := by
  induction t generalizing s with
  | nil => simp [indexSetExtend]
  | cons y ys ih =>
    show x ∈ indexSetExtend (if y ∈ s then s else s ++ [y]) ys ↔ _
    rw [ih]
    by_cases hy : y ∈ s
    · simp only [if_pos hy, List.mem_cons]
      constructor
      · rintro (h | h)
        · exact Or.inl h
        · exact Or.inr (Or.inr h)
      · rintro (h | h | h)
        · exact Or.inl h
        · exact Or.inl (h ▸ hy)
        · exact Or.inr h
    · simp only [if_neg hy, List.mem_append, List.mem_singleton, List.mem_cons]
      tauto

/-- Lemma: `mergeValue` returns `Ok` of `modify` applied to the pre-modify class. -/
theorem mergeValue_eq_modify_preMergeClass (M : Type) (mergeM : M → M → M)
    (modifyM : EClass M → EClass M) (toC fromC : EClass M) :
    mergeValue M mergeM modifyM toC fromC =
      Except.ok (modifyM (preMergeClass M mergeM toC fromC)) := by
  unfold mergeValue preMergeClass
  by_cases h : fromC.nodes.length < toC.nodes.length <;> simp [h]

/-- C1 (counterexample). `Meta::merge` is not commutative: on a cost tie
between two distinct values it keeps `self`, so merging `x`-meta with
`y`-meta (both of cost 1) gives different results in the two orders. -/
theorem meta_merge_not_comm : Meta.merge metaX metaY ≠ Meta.merge metaY metaX := by
  simp [Meta.merge, metaX, metaY]

/-- C1 (amended): `Meta::merge` of the math analysis is associative and
idempotent for all values, and commutative whenever the two values' costs
differ; on cost ties it keeps `self`, so commutativity can fail between
distinct values of equal cost. -/
theorem meta_merge_assoc_idem_comm (a b c : Meta) :
    Meta.merge a (Meta.merge b c) = Meta.merge (Meta.merge a b) c ∧
    Meta.merge a a = a ∧
    (a.cost ≠ b.cost → Meta.merge a b = Meta.merge b a) := by
  refine ⟨?_, ?_, ?_⟩
  · unfold Meta.merge
    split_ifs <;> first | rfl | (exfalso; omega)
  · unfold Meta.merge
    split <;> rfl
  · intro hne
    unfold Meta.merge
    split_ifs <;> first | rfl | (exfalso; omega)

/-- C1 (witness): applying the amended commutativity at two concrete values
of different costs. -/
theorem meta_merge_assoc_idem_comm_witness :
    metaX.cost ≠ fromClass.metadata.cost ∧
    Meta.merge metaX fromClass.metadata = Meta.merge fromClass.metadata metaX :=
  ⟨by decide, (meta_merge_assoc_idem_comm metaX fromClass.metadata metaX).2.2 (by decide)⟩

/-- C2 (counterexample). `Meta::modify` is not monotone: on a class whose
single e-node is `(+ 1 2)` but whose metadata folded to the leaf `3`, it
replaces the node list with the leaf, removing the `+` e-node. -/
theorem meta_modify_removes_enode :
    (⟨Math.Add, [1, 2]⟩ : ENode Nat) ∈ toClass.nodes ∧
    (⟨Math.Add, [1, 2]⟩ : ENode Nat) ∉ (Meta.modify toClass).nodes := by
  constructor
  · simp [toClass]
  · simp [Meta.modify, toClass, ENode.leaf, RecExpr.children, RecExpr.op]

/-- C2 (amended): the default `Metadata::modify` leaves the class unchanged;
`Meta::modify` of the math analysis keeps the id, metadata and parents, and
either (best is a leaf) replaces the node list by exactly the singleton best
leaf e-node — which can remove previously present e-nodes — or (best is not
a leaf) leaves the nodes unchanged. -/
theorem modify_characterization :
    (∀ (M : Type) (ec : EClass M), Metadata.defaultModify M ec = ec) ∧
    ∀ ec : EClass Meta,
      (Meta.modify ec).id = ec.id ∧
      (Meta.modify ec).metadata = ec.metadata ∧
      (Meta.modify ec).parents = ec.parents ∧
      ((ec.metadata.best.children = [] ∧
          (Meta.modify ec).nodes = [ENode.leaf ec.metadata.best.op]) ∨
        (ec.metadata.best.children ≠ [] ∧ (Meta.modify ec).nodes = ec.nodes)) := by
  refine ⟨fun M ec => rfl, fun ec => ?_⟩
  unfold Meta.modify
  rcases h : ec.metadata.best.children with _ | ⟨e, es⟩ <;>
    simp [h, List.isEmpty]

/-- C3 (counterexample). The implementation does not skip `modify` when the
merged metadata equals the surviving class's prior metadata: here the merge
keeps `toClass`'s metadata unchanged, yet the result differs from the
pre-modify class because `modify` still pruned the node list. -/
theorem merge_runs_modify_when_data_unchanged :
    Meta.merge toClass.metadata fromClass.metadata = toClass.metadata ∧
    mergeValue Meta Meta.merge Meta.modify toClass fromClass ≠
      Except.ok (preMergeClass Meta Meta.merge toClass fromClass) := by
  constructor
  · rfl
  · intro h
    have h2 := congrArg (fun r : Except Empty (EClass Meta) =>
      r.map fun ec => ec.nodes) h
    simp [mergeValue, preMergeClass, Meta.modify, Meta.merge, toClass, fromClass,
      ENode.leaf, indexSetExtend, RecExpr.children, RecExpr.op, List.isEmpty,
      Except.map] at h2

/-- C3 (amended): `Value::merge` invokes the analysis's `modify` hook
unconditionally on the merged class — it does not record whether
`merge(a, b) != a`, and runs `modify` whether or not the merged metadata
differs from the surviving class's prior metadata. -/
theorem merge_always_runs_modify (M : Type) (mergeM : M → M → M)
    (modifyM : EClass M → EClass M) (toC fromC : EClass M) :
    mergeValue M mergeM modifyM toC fromC =
      Except.ok (modifyM (preMergeClass M mergeM toC fromC)) := by
  unfold mergeValue preMergeClass
  by_cases h : fromC.nodes.length < toC.nodes.length <;> simp [h]

/-- C4 (counterexample). After `Value::merge` of the math analysis the
surviving class's nodes need not contain the union of the two node lists:
`modify` pruned the merged class down to the folded constant leaf, dropping
the `(+ 1 2)` e-node that was in `toClass`. -/
theorem merge_nodes_not_union :
    mergeValue Meta Meta.merge Meta.modify toClass fromClass =
      Except.ok ⟨0, [⟨Math.Constant 3, []⟩], ⟨1, .mk (.Constant 3) []⟩, [10, 11]⟩ ∧
    (⟨Math.Add, [1, 2]⟩ : ENode Nat) ∈ toClass.nodes ∧
    (⟨Math.Add, [1, 2]⟩ : ENode Nat) ∉ [(⟨Math.Constant 3, []⟩ : ENode Nat)] := by
  refine ⟨rfl, by simp [toClass], by simp⟩

/-- C4 (amended): the class built by `Value::merge` before the `modify` hook
runs has the `to` id, the larger node list extended with the smaller (its
members are exactly the union of the two lists), the merged metadata, and
the union of the two parents sets; the returned class is `modify` of it, so
the claim as stated holds exactly when the analysis's `modify` is the
identity (e.g. the unit analysis). -/
theorem merge_pre_modify_components (M : Type) (mergeM : M → M → M)
    (modifyM : EClass M → EClass M) (toC fromC : EClass M) :
    (preMergeClass M mergeM toC fromC).id = toC.id ∧
    (preMergeClass M mergeM toC fromC).metadata =
      mergeM toC.metadata fromC.metadata ∧
    (preMergeClass M mergeM toC fromC).nodes =
      (if fromC.nodes.length < toC.nodes.length then toC.nodes ++ fromC.nodes
        else fromC.nodes ++ toC.nodes) ∧
    (∀ n, n ∈ (preMergeClass M mergeM toC fromC).nodes ↔
      n ∈ toC.nodes ∨ n ∈ fromC.nodes) ∧
    (∀ p, p ∈ (preMergeClass M mergeM toC fromC).parents ↔
      p ∈ toC.parents ∨ p ∈ fromC.parents) ∧
    (modifyM = id →
      mergeValue M mergeM modifyM toC fromC =
        Except.ok (preMergeClass M mergeM toC fromC)) := by
  refine ⟨rfl, rfl, rfl, ?_, ?_, ?_⟩
  · intro n
    unfold preMergeClass
    dsimp only
    split
    all_goals simp only [List.mem_append]
    all_goals tauto
  · intro p
    exact mem_indexSetExtend _ _ p
  · intro hid
    rw [hid]
    unfold mergeValue preMergeClass
    by_cases h : fromC.nodes.length < toC.nodes.length <;> simp [h]

/-- C4 (witness): with the unit analysis (whose `modify` is the identity)
`Value::merge` returns exactly the pre-modify class at two concrete
classes. -/
theorem merge_pre_modify_components_witness :
    unitModify = id ∧
    mergeValue Unit unitMerge unitModify uClass1 uClass2 =
      Except.ok (preMergeClass Unit unitMerge uClass1 uClass2) :=
  ⟨rfl, (merge_pre_modify_components Unit unitMerge unitModify uClass1 uClass2).2.2.2.2.2 rfl⟩

/-- C5: `Value::merge` of e-classes is infallible: its error type
(`std::convert::Infallible`, modelled `Empty`) is uninhabited, and it
returns `Ok` for every pair of input classes, every analysis `merge` and
every `modify` hook. -/
theorem merge_value_infallible :
    (∀ (M : Type) (mergeM : M → M → M) (modifyM : EClass M → EClass M)
        (toC fromC : EClass M),
      ∃ ec, mergeValue M mergeM modifyM toC fromC = Except.ok ec) ∧
    IsEmpty Empty := by
  constructor
  · intro M mergeM modifyM toC fromC
    exact ⟨modifyM (preMergeClass M mergeM toC fromC),
      mergeValue_eq_modify_preMergeClass M mergeM modifyM toC fromC⟩
  · exact ⟨fun h => h.elim⟩

/-- C6: the unit analysis satisfies every analysis contract trivially: its
`merge` is associative, commutative and idempotent (indeed
`merge((), ()) = ()`), its `make` returns `()` for every e-node, and its
(default) `modify` leaves the e-class unchanged. -/
theorem unit_analysis_trivial :
    (∀ a b c : Unit, unitMerge a (unitMerge b c) = unitMerge (unitMerge a b) c) ∧
    (∀ a b : Unit, unitMerge a b = unitMerge b a) ∧
    (∀ a : Unit, unitMerge a a = a) ∧
    unitMerge () () = () ∧
    (∀ n : ENode Unit, unitMake n = ()) ∧
    (∀ ec : EClass Unit, unitModify ec = ec) :=
  ⟨fun _ _ _ => rfl, fun _ _ => rfl, fun _ => rfl, rfl, fun _ => rfl, fun _ => rfl⟩

/-- C10: constant folding is total and guarded: `eval op args` is `Some`
exactly for `Add`, `Sub`, `Mul` with at least two arguments, or `Div` with
at least two arguments and second argument different from `0`; in every
other case (missing arguments, `Div` by `0`, any other operator) it is
`None`. -/
theorem eval_isSome_iff (op : Math) (args : List ℚ) :
    (eval op args).isSome = true ↔
      (((op = Math.Add ∨ op = Math.Sub ∨ op = Math.Mul) ∧ 2 ≤ args.length) ∨
        (op = Math.Div ∧ 2 ≤ args.length ∧ args.get? 1 ≠ some 0)) := by
  cases op <;> rcases args with _ | ⟨a, _ | ⟨b, t⟩⟩ <;>
    simp [eval, Nat.succ_le_succ, Nat.le_add_left]

end Egg

